import Mathlib

/-!
Verification development for the fish-interpreter repository's
`src/lib/FishExecutor.js`.

The executor class `FishExecutor` is translated from the source file.
The `FishProgram` class it drives is not part of the sources; its
interface (`advance`, `readOutput`, `giveInput`, the read-only
observers and construction) is modelled from the specification.
JavaScript specifics that the code relies on — `Number(v) === v`,
`Math.max(v, 0)`, `Array.prototype.indexOf` returning `-1` on a miss,
`setTimeout` handles — are modelled explicitly below.

Side effects of the executor's methods that are visible to the outside
(how many times `program.advance()` was invoked, which advance
listeners were called and in which order) are returned as an explicit
trace next to the new state, so that claims about them can be stated.
External listener callbacks are identified by reference identity in
JavaScript; they are modelled as opaque natural-number identifiers.
-/

namespace Fish

/-- Modelled from the spec: the four cardinal directions of the
instruction pointer. -/
inductive Direction where
  | up
  | down
  | left
  | right
deriving DecidableEq, Repr

/-- Modelled from the spec: the instruction pointer is a position plus
a direction on the grid. -/
structure InstructionPointer where
  x : Int
  y : Int
  direction : Direction
deriving DecidableEq, Repr

/-- A JavaScript number: NaN, the two infinities, or a finite value
(modelled as a rational; the executor never performs arithmetic on
these beyond `Math.max(·, 0)` and comparison with `0`, which are exact
on floats). -/
inductive JSNum where
  | nan
  | posInf
  | negInf
  | fin (q : ℚ)
deriving DecidableEq, Repr

/-- The JavaScript strict comparison `n === 0`. -/
def JSNum.isZero : JSNum → Bool
  | .fin q => q == 0
  | _ => false

/-- `JSNum.isNonneg n` holds when `n` is an actual number (not NaN)
that is greater than or equal to `0`. -/
def JSNum.isNonneg : JSNum → Bool
  | .nan => false
  | .posInf => true
  | .negInf => false
  | .fin q => decide (0 ≤ q)

/-- `JSNum.isPos n` holds when `n` is an actual number strictly
greater than `0`. -/
def JSNum.isPos : JSNum → Bool
  | .nan => false
  | .posInf => true
  | .negInf => false
  | .fin q => decide (0 < q)

/-- `JSNum.isNeg n` holds when `n` is an actual number strictly less
than `0`. -/
def JSNum.isNeg : JSNum → Bool
  | .nan => false
  | .posInf => false
  | .negInf => true
  | .fin q => decide (q < 0)

/-- The JavaScript expression `Math.max(n, 0)` (for non-NaN `n`;
`Math.max(NaN, 0)` is NaN). -/
def JSNum.max0 : JSNum → JSNum
  | .nan => .nan
  | .posInf => .posInf
  | .negInf => .fin 0
  | .fin q => .fin (max q 0)

/-- A JavaScript value, as far as the executor's argument validation
distinguishes them: a number, a string, a boolean, or anything else
(`null`, `undefined`, objects, functions, ...). -/
inductive JSValue where
  | num (n : JSNum)
  | str (s : String)
  | bool (b : Bool)
  | other
deriving DecidableEq, Repr

/-- The JavaScript test `Number(v) === v`: it succeeds exactly when
`v` is a number and not NaN (coercing a non-number yields a number, so
strict equality fails on the type; `NaN === NaN` is false).  Returns
that number on success. -/
def JSValue.asSelfNumber : JSValue → Option JSNum
  | .num .nan => none
  | .num n => some n
  | _ => none

/-- `JSValue.isOneCharString v` holds exactly when `v` is a string of
exactly one character. -/
def JSValue.isOneCharString : JSValue → Bool
  | .str s => s.length == 1
  | _ => false

/-- The error kinds of the program interface named by the spec that
the executor can observe. -/
inductive FishError where
  | noOutputAvailable
  | invalidInput
deriving DecidableEq, Repr

/-- Modelled from the spec: the state of a `FishProgram` as seen
through its interface.  The VM internals that drive the instruction
cycle (grid, register, string mode, ...) are abstracted into a core
state of type `σ`; the parts the executor's observers read are
explicit fields. -/
structure FishProgram (σ : Type) where
  /-- VM-internal state (grid, modes, ...), abstracted. -/
  core : σ
  /-- The instruction pointer (read-only observer). -/
  instructionPointer : InstructionPointer
  /-- The current stack, bottom-to-top (read via the snapshot observer). -/
  stack : List ℚ
  /-- Whether the program reached its terminal state. -/
  hasTerminated : Bool
  /-- Output produced by output instructions and not yet read. -/
  outputBuffer : String
  /-- Queue of pending input characters, front first. -/
  inputBuffer : List Char

/-- One instruction cycle of the VM on a not-yet-terminated program
(read cell, dispatch, move pointer).  The dispatch table is not part
of the sources covered here, so the development is parametric in it. -/
def Cycle (σ : Type) : Type := FishProgram σ → FishProgram σ

/-- Modelled from the spec: `Program.advance()` performs one
instruction cycle, and is a no-op if the program has already
terminated. -/
def FishProgram.advance (cycle : Cycle σ) (p : FishProgram σ) : FishProgram σ :=
  if p.hasTerminated then p else cycle p

/-- Modelled from the spec: `Program.readOutput()` returns and clears
everything appended to the output buffer since the last call, and
fails with `NoOutputAvailable` if nothing was produced. -/
def FishProgram.readOutput (p : FishProgram σ) :
    Except FishError (String × FishProgram σ) :=
  if p.outputBuffer = "" then
    .error .noOutputAvailable
  else
    .ok (p.outputBuffer, { p with outputBuffer := "" })

/-- Modelled from the spec: `Program.giveInput(c)` enqueues one
character and fails with `InvalidInputError` if `c` is not a string of
exactly one character; on failure the program state is unaffected. -/
def FishProgram.giveInput (p : FishProgram σ) (c : JSValue) :
    Except FishError (FishProgram σ) :=
  match c with
  | .str s =>
      if s.length = 1 then
        .ok { p with inputBuffer := p.inputBuffer ++ s.toList }
      else
        .error .invalidInput
  | _ => .error .invalidInput

/-- Modelled from the spec: construction of a program builds the grid
from the source text (abstracted by `mkCore`) and seeds the stack with
the optional initial stack; the pointer starts at the origin heading
right, nothing has been produced or consumed, and the program has not
terminated. -/
def FishProgram.construct (mkCore : String → σ) (source : String)
    (initialStack : List ℚ) : FishProgram σ :=
  { core := mkCore source
    instructionPointer := ⟨0, 0, .right⟩
    stack := initialStack
    hasTerminated := false
    outputBuffer := ""
    inputBuffer := [] }

/-- The state of a `FishExecutor`, field for field from the
constructor in `src/lib/FishExecutor.js`.  The `_timeout` field holds
the delay of the pending `setTimeout` when one is scheduled (`null`
becomes `none`); listeners are opaque identifiers compared by
reference identity. -/
structure FishExecutor (σ : Type) where
  _program : FishProgram σ
  _output : String
  _isPaused : Bool
  _hasStarted : Bool
  _intervalTime : JSNum
  _timeout : Option JSNum
  _advanceListeners : List Nat

/-- The observable side effects of one `run()` call: how many times
`program.advance()` ran, and which advance listeners were called, in
call order, each receiving this executor as its sole argument. -/
structure RunTrace where
  advances : Nat
  listenerCalls : List Nat
deriving DecidableEq, Repr

/-- The empty trace: no advances, no listener calls. -/
def RunTrace.none : RunTrace := ⟨0, []⟩

namespace FishExecutor

/-- `constructor(source, initialStack)` — the executor's constructor. -/
def construct (mkCore : String → σ) (source : String)
    (initialStack : List ℚ) : FishExecutor σ :=
  { _program := FishProgram.construct mkCore source initialStack
    _output := ""
    _isPaused := false
    _hasStarted := false
    _intervalTime := .fin 100
    _timeout := none
    _advanceListeners := [] }

/-- `Array.prototype.indexOf`: the first index holding the value, or
`-1` when the value does not occur. -/
def jsIndexOf (func : Nat) : List Nat → Int
  | [] => -1
  | x :: xs =>
      if x = func then 0
      else
        let r := jsIndexOf func xs
        if r < 0 then -1 else r + 1

/-- `onAdvance(func)` — pushes the listener onto the listener array. -/
def onAdvance (e : FishExecutor σ) (func : Nat) : FishExecutor σ :=
  { e with _advanceListeners := e._advanceListeners ++ [func] }

/-- `offAdvance(func)` — looks up the listener's first index with
`indexOf` and, when it is there (`i >= 0`), splices it out
(`splice(i, 1)` removes the one element at index `i`). -/
def offAdvance (e : FishExecutor σ) (func : Nat) : FishExecutor σ :=
  let i := jsIndexOf func e._advanceListeners
  if 0 ≤ i then
    { e with _advanceListeners := e._advanceListeners.eraseIdx i.toNat }
  else
    e

/-- `get instructionPointer()` — returns `this._program.instructionPointer`.
Getters are embedded as state transformers returning the read value
next to the post-read state. -/
def instructionPointer (e : FishExecutor σ) :
    InstructionPointer × FishExecutor σ :=
  (e._program.instructionPointer, e)

/-- `get inputBuffer()` — returns `this._program.inputBuffer`. -/
def inputBuffer (e : FishExecutor σ) : List Char × FishExecutor σ :=
  (e._program.inputBuffer, e)

/-- `giveInput(c)` — forwards to `this._program.giveInput(c)`; a
thrown `InvalidInputError` propagates to the caller. -/
def giveInput (e : FishExecutor σ) (c : JSValue) :
    Except FishError (FishExecutor σ) :=
  match e._program.giveInput c with
  | .ok p => .ok { e with _program := p }
  | .error err => .error err

/-- `get stackSnapshot()` — returns `this._program.stack.snapshot`,
the read-only bottom-to-top copy of the program's stack. -/
def stackSnapshot (e : FishExecutor σ) : List ℚ × FishExecutor σ :=
  (e._program.stack, e)

/-- `get intervalTime()` — returns `this._intervalTime`. -/
def intervalTime (e : FishExecutor σ) : JSNum × FishExecutor σ :=
  (e._intervalTime, e)

/-- `get hasStarted()` — returns `this._hasStarted`. -/
def hasStarted (e : FishExecutor σ) : Bool × FishExecutor σ :=
  (e._hasStarted, e)

/-- `pause()` — sets the paused flag. -/
def pause (e : FishExecutor σ) : FishExecutor σ :=
  { e with _isPaused := true }

/-- `_setTimeout(ms)` — schedules the next run after `ms`
milliseconds and remembers the pending timeout. -/
def _setTimeout (e : FishExecutor σ) (ms : JSNum) : FishExecutor σ :=
  { e with _timeout := some ms }

/-- `_clearTimeout()` — clears and resets the pending timeout. -/
def _clearTimeout (e : FishExecutor σ) : FishExecutor σ :=
  { e with _timeout := none }

/-- `get isPaused()` — returns `this._isPaused`. -/
def isPaused (e : FishExecutor σ) : Bool × FishExecutor σ :=
  (e._isPaused, e)

/-- `get hasTerminated()` — returns `this._program.hasTerminated`. -/
def hasTerminated (e : FishExecutor σ) : Bool × FishExecutor σ :=
  (e._program.hasTerminated, e)

/-- `_advance()` — advances the program one step, then tries to read
its output and appends what was read to `this._output`; when the read
throws (`NoOutputAvailable`), nothing is done. -/
def _advance (cycle : Cycle σ) (e : FishExecutor σ) : FishExecutor σ :=
  let p := FishProgram.advance cycle e._program
  match p.readOutput with
  | .ok (o, p2) => { e with _program := p2, _output := e._output ++ o }
  | .error _ => { e with _program := p }

/-- `get program()` — returns `this._program`. -/
def program (e : FishExecutor σ) : FishProgram σ × FishExecutor σ :=
  (e._program, e)

/-- `get output()` — returns `this._output`. -/
def output (e : FishExecutor σ) : String × FishExecutor σ :=
  (e._output, e)

/-- `static get _FULL_SPEED_ADVANCES()` — the number of advances done
before yielding when running at full speed. -/
def _FULL_SPEED_ADVANCES : Nat := 10000

/-- `_runAtInterval()` — does one step, then schedules the next run
after `this._intervalTime` milliseconds.  Returns the number of
program advances performed (always one) next to the new state. -/
def _runAtInterval (cycle : Cycle σ) (e : FishExecutor σ) :
    FishExecutor σ × Nat :=
  let e1 := _advance cycle e
  (_setTimeout e1 e1._intervalTime, 1)

/-- The `while (!this.hasTerminated && advances < FishExecutor._FULL_SPEED_ADVANCES)`
loop of `_runAtFullSpeed`, with `advances` the loop counter. -/
def _fullSpeedLoop (cycle : Cycle σ) (e : FishExecutor σ) (advances : Nat) :
    FishExecutor σ × Nat :=
  if h : (hasTerminated e).1 = false ∧ advances < _FULL_SPEED_ADVANCES then
    _fullSpeedLoop cycle (_advance cycle e) (advances + 1)
  else
    (e, advances)
termination_by _FULL_SPEED_ADVANCES - advances
decreasing_by omega

/-- `_runAtFullSpeed()` — runs a predefined number of advances, or
fewer if the program terminates, then schedules the next run with a
zero delay.  Returns the number of program advances performed. -/
def _runAtFullSpeed (cycle : Cycle σ) (e : FishExecutor σ) :
    FishExecutor σ × Nat :=
  let r := _fullSpeedLoop cycle e 0
  (_setTimeout r.1 (.fin 0), r.2)

/-- `run()` — sets the started flag; returns immediately when the
execution is paused, the program has terminated, or a run is already
scheduled; otherwise runs at full speed when `this._intervalTime === 0`
and at an interval otherwise, then calls every advance listener with
this executor.  The trace records the advances performed and the
listeners called. -/
def run (cycle : Cycle σ) (e0 : FishExecutor σ) :
    FishExecutor σ × RunTrace :=
  let e := { e0 with _hasStarted := true }
  if (isPaused e).1 || (hasTerminated e).1 || e._timeout.isSome then
    (e, RunTrace.none)
  else
    let r :=
      if e._intervalTime.isZero then
        _runAtFullSpeed cycle e
      else
        _runAtInterval cycle e
    (r.1, ⟨r.2, r.1._advanceListeners⟩)

/-- `resume()` — clears the paused flag, then does a run. -/
def resume (cycle : Cycle σ) (e : FishExecutor σ) :
    FishExecutor σ × RunTrace :=
  run cycle { e with _isPaused := false }

/-- `set intervalTime(newTime)` — when `Number(newTime) === newTime`,
stores `Math.max(newTime, 0)`, clears the run timeout, and runs again
if the program has started; otherwise does nothing. -/
def setIntervalTime (cycle : Cycle σ) (e : FishExecutor σ)
    (newTime : JSValue) : FishExecutor σ × RunTrace :=
  match newTime.asSelfNumber with
  | some n =>
      let e1 := _clearTimeout { e with _intervalTime := n.max0 }
      if e1._hasStarted then run cycle e1 else (e1, RunTrace.none)
  | none => (e, RunTrace.none)

end FishExecutor

/-! Concrete instantiations used to evaluate the development at
specific inputs: the abstract VM core is taken to be `Unit`, and two
concrete instruction cycles are considered — one that halts the
program on its first step and one that produces one character of
output per step. -/

/-- A cycle that marks the program terminated on its first step
(a program whose first instruction is the halt instruction `;`). -/
def termCycle : Cycle Unit := fun p => { p with hasTerminated := true }

/-- A cycle that appends one character to the output buffer on every
step (an output instruction with enough stacked operands). -/
def outCycle : Cycle Unit := fun p =>
  { p with outputBuffer := p.outputBuffer ++ "A" }

/-- A freshly constructed executor over the trivial core. -/
def baseExec : FishExecutor Unit := FishExecutor.construct (fun _ => ()) "v" []

/-- An executor whose program has already terminated but whose own
`run()` was never called (`_hasStarted` still false); reachable by
terminating the program through the public `program` getter. -/
def termExec : FishExecutor Unit :=
  { baseExec with _program := { baseExec._program with hasTerminated := true } }

/-- A freshly constructed executor that was paused before any run. -/
def pausedExec : FishExecutor Unit := { baseExec with _isPaused := true }

/-- A freshly constructed executor with `intervalTime` set to zero. -/
def zeroExec : FishExecutor Unit := { baseExec with _intervalTime := .fin 0 }

/-- An executor whose program has one character of pending unread
output. -/
def outExec : FishExecutor Unit :=
  { baseExec with _program := { baseExec._program with outputBuffer := "B" } }

/-- A freshly constructed executor with two registered listeners. -/
def listExec : FishExecutor Unit := { baseExec with _advanceListeners := [3, 5] }

/-- The executor obtained from `baseExec` by giving it the input
character `x`. -/
def giveExec : FishExecutor Unit :=
  { baseExec with
      _program :=
        { baseExec._program with
            inputBuffer := baseExec._program.inputBuffer ++ "x".toList } }

/-! ### Basic lemmas about the executor's internal operations -/

namespace FishExecutor

theorem isPaused_fst (e : FishExecutor σ) : (isPaused e).1 = e._isPaused := rfl

theorem hasTerminated_fst (e : FishExecutor σ) :
    (hasTerminated e).1 = e._program.hasTerminated := rfl

/-- `_advance` only touches the program and the output string. -/
theorem _advance_frame (cycle : Cycle σ) (e : FishExecutor σ) :
    (_advance cycle e)._isPaused = e._isPaused ∧
    (_advance cycle e)._hasStarted = e._hasStarted ∧
    (_advance cycle e)._intervalTime = e._intervalTime ∧
    (_advance cycle e)._timeout = e._timeout ∧
    (_advance cycle e)._advanceListeners = e._advanceListeners := by
  simp only [_advance]
  split <;> exact ⟨rfl, rfl, rfl, rfl, rfl⟩

/-- `_advance` can only append to the output string. -/
theorem _advance_output_grows (cycle : Cycle σ) (e : FishExecutor σ) :
    ∃ t, (_advance cycle e)._output = e._output ++ t := by
  simp only [_advance]
  split
  · exact ⟨_, rfl⟩
  · exact ⟨"", (String.append_empty _).symm⟩

/-- The full-speed loop only touches the program and the output
string, only appends to the output, and never counts past
`_FULL_SPEED_ADVANCES` when started within the bound. -/
theorem _fullSpeedLoop_props (cycle : Cycle σ) :
    ∀ (n : Nat) (e : FishExecutor σ) (a : Nat), _FULL_SPEED_ADVANCES - a ≤ n →
      ((_fullSpeedLoop cycle e a).1._isPaused = e._isPaused ∧
       (_fullSpeedLoop cycle e a).1._hasStarted = e._hasStarted ∧
       (_fullSpeedLoop cycle e a).1._intervalTime = e._intervalTime ∧
       (_fullSpeedLoop cycle e a).1._timeout = e._timeout ∧
       (_fullSpeedLoop cycle e a).1._advanceListeners = e._advanceListeners) ∧
      (∃ t, (_fullSpeedLoop cycle e a).1._output = e._output ++ t) ∧
      (a ≤ _FULL_SPEED_ADVANCES → (_fullSpeedLoop cycle e a).2 ≤ _FULL_SPEED_ADVANCES) := by
  intro n
  induction n with
  | zero =>
      intro e a h
      have hng : ¬ ((hasTerminated e).1 = false ∧ a < _FULL_SPEED_ADVANCES) := by
        intro hc
        omega
      unfold _fullSpeedLoop
      rw [dif_neg hng]
      exact ⟨⟨rfl, rfl, rfl, rfl, rfl⟩, ⟨"", (String.append_empty _).symm⟩, fun ha => ha⟩
  | succ n ih =>
      intro e a h
      unfold _fullSpeedLoop
      by_cases hc : (hasTerminated e).1 = false ∧ a < _FULL_SPEED_ADVANCES
      · rw [dif_pos hc]
        obtain ⟨⟨h1, h2, h3, h4, h5⟩, ⟨t, ht⟩, hcount⟩ :=
          ih (_advance cycle e) (a + 1) (by omega)
        obtain ⟨ha1, ha2, ha3, ha4, ha5⟩ := _advance_frame cycle e
        obtain ⟨t2, ht2⟩ := _advance_output_grows cycle e
        refine ⟨⟨?_, ?_, ?_, ?_, ?_⟩, ⟨t2 ++ t, ?_⟩, fun ha => hcount (by omega)⟩
        · rw [h1, ha1]
        · rw [h2, ha2]
        · rw [h3, ha3]
        · rw [h4, ha4]
        · rw [h5, ha5]
        · rw [ht, ht2, String.append_assoc]
      · rw [dif_neg hc]
        exact ⟨⟨rfl, rfl, rfl, rfl, rfl⟩, ⟨"", (String.append_empty _).symm⟩, fun ha => ha⟩

end FishExecutor

/-! ### JavaScript `indexOf` lemmas -/

theorem jsIndexOf_of_not_mem (f : Nat) (l : List Nat) (h : f ∉ l) :
    FishExecutor.jsIndexOf f l = -1 := by
  induction l with
  | nil => rfl
  | cons x xs ih =>
      simp only [List.mem_cons, not_or] at h
      have hx : ¬(x = f) := fun hxe => h.1 hxe.symm
      simp only [FishExecutor.jsIndexOf, if_neg hx, ih h.2]
      norm_num

theorem jsIndexOf_concat_self (f : Nat) (l : List Nat) (h : f ∉ l) :
    FishExecutor.jsIndexOf f (l ++ [f]) = (l.length : Int) := by
  induction l with
  | nil => simp [FishExecutor.jsIndexOf]
  | cons x xs ih =>
      simp only [List.mem_cons, not_or] at h
      have hx : ¬(x = f) := fun hxe => h.1 hxe.symm
      have hr := ih h.2
      show FishExecutor.jsIndexOf f (x :: (xs ++ [f])) = _
      simp only [FishExecutor.jsIndexOf, if_neg hx, hr, List.length_cons]
      have hnn : ¬ ((xs.length : Int) < 0) := by omega
      rw [if_neg hnn]
      push_cast
      ring

theorem eraseIdx_concat (l : List Nat) (f : Nat) :
    (l ++ [f]).eraseIdx l.length = l := by
  induction l with
  | nil => rfl
  | cons x xs ih =>
      simpa [List.eraseIdx] using ih

/-! ### Claim theorems -/

/-- Claim C1, amended: calling `run()` on an executor whose program
has already terminated performs no instruction cycle, calls no
listener, and leaves every observable unchanged except that the
started flag is unconditionally set to true (run sets `_hasStarted`
before consulting the guard). -/
theorem c1_run_on_terminated (cycle : Cycle σ) (e : FishExecutor σ)
    (h : e._program.hasTerminated = true) :
    FishExecutor.run cycle e = ({ e with _hasStarted := true }, RunTrace.none) := by
  simp [FishExecutor.run, FishExecutor.isPaused_fst, FishExecutor.hasTerminated_fst, h]

/-- Counterexample to claim C1 as stated: on an executor whose
program has terminated but whose `run()` was never called, `run()` is
not a no-op on the observables — it flips `hasStarted` from false to
true. -/
theorem c1_counterexample :
    termExec._program.hasTerminated = true ∧
    termExec._hasStarted = false ∧
    (FishExecutor.run termCycle termExec).1._hasStarted = true := by
  exact ⟨rfl, rfl, rfl⟩

/-- Witness for C1's amended theorem at a concrete terminated
executor. -/
theorem c1_witness :
    FishExecutor.run termCycle termExec =
      ({ termExec with _hasStarted := true }, RunTrace.none) :=
  c1_run_on_terminated termCycle termExec rfl

/-- Claim C2: one internal advance step applies the program's
`advance()` exactly once and then reads its output exactly once: the
resulting executor is a function of the once-advanced program, with
the read output appended to the cumulative output and the program's
buffer cleared on a successful read, and with the cumulative output
unchanged (and no error escaping) when nothing was produced. -/
theorem c2_advance_output_handling (cycle : Cycle σ) (e : FishExecutor σ) :
    ((FishProgram.advance cycle e._program).outputBuffer = "" →
      FishExecutor._advance cycle e =
        { e with _program := FishProgram.advance cycle e._program }) ∧
    ((FishProgram.advance cycle e._program).outputBuffer ≠ "" →
      FishExecutor._advance cycle e =
        { e with
            _program := { FishProgram.advance cycle e._program with outputBuffer := "" }
            _output := e._output ++ (FishProgram.advance cycle e._program).outputBuffer }) := by
  constructor
  · intro h
    simp [FishExecutor._advance, FishProgram.readOutput, h]
  · intro h
    simp [FishExecutor._advance, FishProgram.readOutput, h]

/-- Witness for C2 at two concrete executors: a step that produces no
output leaves the cumulative output alone, and a step that produces
"A" appends it. -/
theorem c2_witness :
    (FishExecutor._advance termCycle baseExec =
      { baseExec with _program := FishProgram.advance termCycle baseExec._program }) ∧
    (FishExecutor._advance outCycle baseExec =
      { baseExec with
          _program :=
            { FishProgram.advance outCycle baseExec._program with outputBuffer := "" }
          _output :=
            baseExec._output ++ (FishProgram.advance outCycle baseExec._program).outputBuffer }) :=
  ⟨(c2_advance_output_handling termCycle baseExec).1 (by decide),
   (c2_advance_output_handling outCycle baseExec).2 (by decide)⟩

/-- Claim C6: the observer getters are read-only — each returns the
executor state it was given, unchanged. -/
theorem c6_getters_readonly (e : FishExecutor σ) :
    (FishExecutor.instructionPointer e).2 = e ∧
    (FishExecutor.inputBuffer e).2 = e ∧
    (FishExecutor.stackSnapshot e).2 = e ∧
    (FishExecutor.hasStarted e).2 = e ∧
    (FishExecutor.isPaused e).2 = e ∧
    (FishExecutor.intervalTime e).2 = e ∧
    (FishExecutor.output e).2 = e ∧
    (FishExecutor.hasTerminated e).2 = e :=
  ⟨rfl, rfl, rfl, rfl, rfl, rfl, rfl, rfl⟩

/-- Claim C7: the constructor builds the program from exactly the two
constructor arguments and initializes every executor field as the
source does. -/
theorem c7_construct_state (mkCore : String → σ) (source : String)
    (initialStack : List ℚ) :
    (FishExecutor.construct mkCore source initialStack)._program =
      FishProgram.construct mkCore source initialStack ∧
    (FishExecutor.construct mkCore source initialStack)._output = "" ∧
    (FishExecutor.construct mkCore source initialStack)._isPaused = false ∧
    (FishExecutor.construct mkCore source initialStack)._hasStarted = false ∧
    (FishExecutor.construct mkCore source initialStack)._intervalTime = JSNum.fin 100 ∧
    (FishExecutor.construct mkCore source initialStack)._timeout = none ∧
    (FishExecutor.construct mkCore source initialStack)._advanceListeners = [] :=
  ⟨rfl, rfl, rfl, rfl, rfl, rfl, rfl⟩

/-- Claim C9: registering a listener that is not currently registered
and then unregistering it restores the listener list exactly, and
unregistering a listener that is not registered changes nothing. -/
theorem c9_listener_cancel (e : FishExecutor σ) (f : Nat)
    (h : f ∉ e._advanceListeners) :
    FishExecutor.offAdvance (FishExecutor.onAdvance e f) f = e ∧
    FishExecutor.offAdvance e f = e := by
  constructor
  · simp only [FishExecutor.onAdvance, FishExecutor.offAdvance,
      jsIndexOf_concat_self f e._advanceListeners h]
    rw [if_pos (Int.natCast_nonneg _)]
    simp [eraseIdx_concat]
  · simp only [FishExecutor.offAdvance, jsIndexOf_of_not_mem f e._advanceListeners h]
    rw [if_neg (by norm_num)]

/-- Witness for C9 on a freshly constructed executor and the listener
identified by 7. -/
theorem c9_witness :
    FishExecutor.offAdvance (FishExecutor.onAdvance baseExec 7) 7 = baseExec ∧
    FishExecutor.offAdvance baseExec 7 = baseExec :=
  c9_listener_cancel baseExec 7 (by decide)

/-! ### Lemmas about `run` and the interval-time setter -/

namespace FishExecutor

/-- A `run()` whose entry guard rejects only sets the started flag. -/
theorem run_guard_fail (cycle : Cycle σ) (e : FishExecutor σ)
    (h : e._isPaused = true ∨ e._program.hasTerminated = true ∨ e._timeout.isSome = true) :
    run cycle e = ({ e with _hasStarted := true }, RunTrace.none) := by
  rcases h with h | h | h <;> simp [run, isPaused_fst, hasTerminated_fst, h]

/-- A `run()` whose entry guard passes sets the started flag and then
runs at full speed or at an interval depending on whether the interval
time is strictly equal to zero. -/
theorem run_guard_pass (cycle : Cycle σ) (e : FishExecutor σ)
    (hp : e._isPaused = false) (ht : e._program.hasTerminated = false)
    (hto : e._timeout = none) :
    run cycle e =
      ((if e._intervalTime.isZero = true then
          _runAtFullSpeed cycle { e with _hasStarted := true }
        else _runAtInterval cycle { e with _hasStarted := true }).1,
       ⟨(if e._intervalTime.isZero = true then
           _runAtFullSpeed cycle { e with _hasStarted := true }
         else _runAtInterval cycle { e with _hasStarted := true }).2,
        (if e._intervalTime.isZero = true then
           _runAtFullSpeed cycle { e with _hasStarted := true }
         else _runAtInterval cycle { e with _hasStarted := true }).1._advanceListeners⟩) := by
  simp only [run, isPaused_fst, hasTerminated_fst, hp, ht, hto, Option.isSome_none,
    Bool.or_self, Bool.or_false, Bool.false_or]
  rfl

/-- `run` leaves the interval time, the listener list and the paused
flag unchanged, and only appends to the output. -/
theorem run_frame (cycle : Cycle σ) (e : FishExecutor σ) :
    (run cycle e).1._intervalTime = e._intervalTime ∧
    (run cycle e).1._advanceListeners = e._advanceListeners ∧
    (run cycle e).1._isPaused = e._isPaused ∧
    (∃ t, (run cycle e).1._output = e._output ++ t) := by
  simp only [run, isPaused_fst, hasTerminated_fst]
  split
  · exact ⟨rfl, rfl, rfl, ⟨"", (String.append_empty _).symm⟩⟩
  · split
    · obtain ⟨⟨hp, _, hi, _, hl⟩, ⟨t, ht⟩, _⟩ :=
        _fullSpeedLoop_props cycle _FULL_SPEED_ADVANCES { e with _hasStarted := true } 0
          (by omega)
      refine ⟨?_, ?_, ?_, ⟨t, ?_⟩⟩ <;>
        simp only [_runAtFullSpeed, _setTimeout] <;> assumption
    · obtain ⟨hp, _, hi, _, hl⟩ := _advance_frame cycle { e with _hasStarted := true }
      obtain ⟨t, ht⟩ := _advance_output_grows cycle { e with _hasStarted := true }
      refine ⟨?_, ?_, ?_, ⟨t, ?_⟩⟩ <;>
        simp only [_runAtInterval, _setTimeout] <;> assumption

end FishExecutor

/-! ### Lemmas about JavaScript numbers -/

theorem JSNum.pos_not_zero (n : JSNum) (h : n.isPos = true) : n.isZero = false := by
  cases n with
  | nan => rfl
  | posInf => rfl
  | negInf => rfl
  | fin q =>
      simp only [JSNum.isPos, decide_eq_true_eq] at h
      simp only [JSNum.isZero, beq_eq_false_iff_ne, ne_eq]
      exact fun hq => absurd (hq ▸ h) (lt_irrefl 0)

theorem JSNum.max0_of_neg (n : JSNum) (h : n.isNeg = true) : n.max0 = JSNum.fin 0 := by
  cases n with
  | nan => simp [JSNum.isNeg] at h
  | posInf => simp [JSNum.isNeg] at h
  | negInf => rfl
  | fin q =>
      simp only [JSNum.isNeg, decide_eq_true_eq] at h
      simp [JSNum.max0, max_eq_right (le_of_lt h)]

theorem JSNum.max0_of_not_neg (n : JSNum) (hne : n ≠ JSNum.nan) (h : n.isNeg = false) :
    n.max0 = n := by
  cases n with
  | nan => exact absurd rfl hne
  | posInf => rfl
  | negInf => simp [JSNum.isNeg] at h
  | fin q =>
      simp only [JSNum.isNeg, decide_eq_false_iff_not, not_lt] at h
      simp [JSNum.max0, max_eq_left h]

theorem JSNum.max0_nonneg (n : JSNum) (hne : n ≠ JSNum.nan) :
    n.max0.isNonneg = true := by
  cases n with
  | nan => exact absurd rfl hne
  | posInf => rfl
  | negInf => simp [JSNum.max0, JSNum.isNonneg]
  | fin q => simp [JSNum.max0, JSNum.isNonneg, le_max_right]

theorem JSValue.asSelfNumber_num (n : JSNum) (h : n ≠ JSNum.nan) :
    (JSValue.num n).asSelfNumber = some n := by
  cases n with
  | nan => exact absurd rfl h
  | posInf => rfl
  | negInf => rfl
  | fin q => rfl

namespace FishExecutor

/-- Assigning a non-NaN number `n` through the interval-time setter
stores `Math.max(n, 0)`, whether or not a run follows. -/
theorem setIntervalTime_stores (cycle : Cycle σ) (e : FishExecutor σ) (n : JSNum)
    (h : n ≠ JSNum.nan) :
    (setIntervalTime cycle e (JSValue.num n)).1._intervalTime = n.max0 := by
  simp only [setIntervalTime, JSValue.asSelfNumber_num n h]
  split
  · rw [(run_frame cycle _).1]
    rfl
  · rfl

/-- A successful `giveInput` changes nothing in the executor's own
state (only the program's input buffer). -/
theorem giveInput_ok_frame (e : FishExecutor σ) (c : JSValue) (e' : FishExecutor σ)
    (h : giveInput e c = Except.ok e') :
    e'._output = e._output ∧ e'._isPaused = e._isPaused ∧
    e'._hasStarted = e._hasStarted ∧ e'._intervalTime = e._intervalTime ∧
    e'._timeout = e._timeout ∧ e'._advanceListeners = e._advanceListeners := by
  cases c with
  | str s =>
      by_cases hl : s.length = 1
      · rw [show giveInput e (JSValue.str s) =
            Except.ok { e with _program :=
              { e._program with inputBuffer := e._program.inputBuffer ++ s.toList } } by
            simp [giveInput, FishProgram.giveInput, hl]] at h
        injection h with h
        exact h ▸ ⟨rfl, rfl, rfl, rfl, rfl, rfl⟩
      · simp [giveInput, FishProgram.giveInput, hl] at h
  | num n => simp [giveInput, FishProgram.giveInput] at h
  | bool b => simp [giveInput, FishProgram.giveInput] at h
  | other => simp [giveInput, FishProgram.giveInput] at h

end FishExecutor

/-! ### Remaining claim theorems -/

/-- Claim C3, amended: a `run()` whose entry guard rejects (paused,
terminated, or a pending run timeout) performs zero program advances;
when the guard passes it performs exactly one advance if the interval
time is positive and at most 10000 advances if it is zero, and in
either case returns with a timeout scheduled so that further progress
happens only through that timeout. -/
theorem c3_run_bounded (cycle : Cycle σ) (e : FishExecutor σ) :
    ((e._isPaused = true ∨ e._program.hasTerminated = true ∨ e._timeout.isSome = true) →
      (FishExecutor.run cycle e).2.advances = 0) ∧
    (e._isPaused = false → e._program.hasTerminated = false → e._timeout = none →
      (e._intervalTime.isPos = true → (FishExecutor.run cycle e).2.advances = 1) ∧
      (e._intervalTime.isZero = true →
        (FishExecutor.run cycle e).2.advances ≤ FishExecutor._FULL_SPEED_ADVANCES) ∧
      (FishExecutor.run cycle e).1._timeout.isSome = true) := by
  constructor
  · intro h
    rw [FishExecutor.run_guard_fail cycle e h]
    rfl
  · intro hp ht hto
    rw [FishExecutor.run_guard_pass cycle e hp ht hto]
    refine ⟨?_, ?_, ?_⟩
    · intro hpos
      rw [JSNum.pos_not_zero _ hpos]
      simp [FishExecutor._runAtInterval, FishExecutor._setTimeout]
    · intro hz
      rw [hz]
      obtain ⟨_, _, hcount⟩ :=
        FishExecutor._fullSpeedLoop_props cycle FishExecutor._FULL_SPEED_ADVANCES
          { e with _hasStarted := true } 0 (by omega)
      simpa [FishExecutor._runAtFullSpeed, FishExecutor._setTimeout] using hcount (by omega)
    · cases hz : e._intervalTime.isZero with
      | false => simp [FishExecutor._runAtInterval, FishExecutor._setTimeout]
      | true => simp [FishExecutor._runAtFullSpeed, FishExecutor._setTimeout]

/-- Counterexample to claim C3 as stated: a paused executor with a
positive interval time performs zero advances on `run()`, not exactly
one. -/
theorem c3_counterexample :
    pausedExec._intervalTime.isPos = true ∧
    (FishExecutor.run termCycle pausedExec).2.advances ≠ 1 := by
  exact ⟨by decide, by decide⟩

/-- Witness for C3's amended theorem: the three bounds at concrete
executors. -/
theorem c3_witness :
    (FishExecutor.run termCycle pausedExec).2.advances = 0 ∧
    (FishExecutor.run termCycle baseExec).2.advances = 1 ∧
    (FishExecutor.run termCycle zeroExec).2.advances ≤ FishExecutor._FULL_SPEED_ADVANCES :=
  ⟨(c3_run_bounded termCycle pausedExec).1 (Or.inl rfl),
   ((c3_run_bounded termCycle baseExec).2 rfl rfl rfl).1 (by decide),
   (((c3_run_bounded termCycle zeroExec).2 rfl rfl rfl).2).1 (by decide)⟩

/-- Claim C4: a `run()` that passes the entry guard calls every
registered advance listener exactly once, in registration order (the
trace of listener calls equals the listener list); a guarded-out
`run()` calls none. -/
theorem c4_run_listener_calls (cycle : Cycle σ) (e : FishExecutor σ) :
    (e._isPaused = false → e._program.hasTerminated = false → e._timeout = none →
      (FishExecutor.run cycle e).2.listenerCalls = e._advanceListeners) ∧
    ((e._isPaused = true ∨ e._program.hasTerminated = true ∨ e._timeout.isSome = true) →
      (FishExecutor.run cycle e).2.listenerCalls = []) := by
  constructor
  · intro hp ht hto
    rw [FishExecutor.run_guard_pass cycle e hp ht hto]
    cases hz : e._intervalTime.isZero with
    | false =>
        obtain ⟨_, _, _, _, hl⟩ :=
          FishExecutor._advance_frame cycle { e with _hasStarted := true }
        simpa [FishExecutor._runAtInterval, FishExecutor._setTimeout] using hl
    | true =>
        obtain ⟨⟨_, _, _, _, hl⟩, _, _⟩ :=
          FishExecutor._fullSpeedLoop_props cycle FishExecutor._FULL_SPEED_ADVANCES
            { e with _hasStarted := true } 0 (by omega)
        simpa [FishExecutor._runAtFullSpeed, FishExecutor._setTimeout] using hl
  · intro h
    rw [FishExecutor.run_guard_fail cycle e h]
    rfl

/-- Witness for C4: a run with two registered listeners calls exactly
those two, in order; a paused run calls none. -/
theorem c4_witness :
    (FishExecutor.run termCycle listExec).2.listenerCalls = listExec._advanceListeners ∧
    (FishExecutor.run termCycle pausedExec).2.listenerCalls = [] :=
  ⟨(c4_run_listener_calls termCycle listExec).1 rfl rfl rfl,
   (c4_run_listener_calls termCycle pausedExec).2 (Or.inl rfl)⟩

/-- Claim C5: `giveInput(c)` succeeds exactly when `c` is a string of
one character, in which case it enqueues that character at the back of
the program's input queue and changes nothing else; otherwise it
throws `InvalidInputError` and neither the executor's own state nor
the program's state changes. -/
theorem c5_giveInput (e : FishExecutor σ) (c : JSValue) :
    (∀ s, c = JSValue.str s → s.length = 1 →
      FishExecutor.giveInput e c =
        Except.ok { e with _program :=
          { e._program with inputBuffer := e._program.inputBuffer ++ s.toList } }) ∧
    (c.isOneCharString = false →
      FishExecutor.giveInput e c = Except.error FishError.invalidInput) := by
  constructor
  · rintro s rfl h
    simp [FishExecutor.giveInput, FishProgram.giveInput, h]
  · intro h
    cases c with
    | str s =>
        simp only [JSValue.isOneCharString, beq_eq_false_iff_ne, ne_eq] at h
        simp [FishExecutor.giveInput, FishProgram.giveInput, h]
    | num n => rfl
    | bool b => rfl
    | other => rfl

/-- Witness for C5: giving the character `x` enqueues it, giving the
two-character string `xy` throws. -/
theorem c5_witness :
    FishExecutor.giveInput baseExec (JSValue.str "x") = Except.ok giveExec ∧
    FishExecutor.giveInput baseExec (JSValue.str "xy") =
      Except.error FishError.invalidInput :=
  ⟨(c5_giveInput baseExec (JSValue.str "x")).1 "x" rfl (by decide),
   (c5_giveInput baseExec (JSValue.str "xy")).2 (by decide)⟩

/-- Claim C8: the interval time starts at 100; the setter ignores
values `v` with `Number(v) !== v`, stores 0 for negative numbers and
the number itself otherwise; and every public operation preserves
non-negativity of the interval time. -/
theorem c8_intervalTime_nonneg (cycle : Cycle σ) (e : FishExecutor σ)
    (mkCore : String → σ) (source : String) (initialStack : List ℚ)
    (v : JSValue) (f : Nat) :
    (FishExecutor.construct mkCore source initialStack)._intervalTime = JSNum.fin 100 ∧
    (v.asSelfNumber = none →
      (FishExecutor.setIntervalTime cycle e v).1._intervalTime = e._intervalTime) ∧
    (∀ n, n ≠ JSNum.nan → n.isNeg = true →
      (FishExecutor.setIntervalTime cycle e (JSValue.num n)).1._intervalTime = JSNum.fin 0) ∧
    (∀ n, n ≠ JSNum.nan → n.isNeg = false →
      (FishExecutor.setIntervalTime cycle e (JSValue.num n)).1._intervalTime = n) ∧
    (e._intervalTime.isNonneg = true →
      (FishExecutor.run cycle e).1._intervalTime.isNonneg = true ∧
      (FishExecutor.pause e)._intervalTime.isNonneg = true ∧
      (FishExecutor.resume cycle e).1._intervalTime.isNonneg = true ∧
      (∀ e', FishExecutor.giveInput e v = Except.ok e' →
        e'._intervalTime.isNonneg = true) ∧
      (FishExecutor.setIntervalTime cycle e v).1._intervalTime.isNonneg = true ∧
      (FishExecutor.onAdvance e f)._intervalTime.isNonneg = true ∧
      (FishExecutor.offAdvance e f)._intervalTime.isNonneg = true) := by
  refine ⟨rfl, ?_, ?_, ?_, ?_⟩
  · intro h
    simp [FishExecutor.setIntervalTime, h]
  · intro n hne hneg
    rw [FishExecutor.setIntervalTime_stores cycle e n hne, JSNum.max0_of_neg n hneg]
  · intro n hne hneg
    rw [FishExecutor.setIntervalTime_stores cycle e n hne, JSNum.max0_of_not_neg n hne hneg]
  · intro hnn
    refine ⟨?_, hnn, ?_, ?_, ?_, hnn, ?_⟩
    · rw [(FishExecutor.run_frame cycle e).1]
      exact hnn
    · show (FishExecutor.run cycle
        { e with _isPaused := false }).1._intervalTime.isNonneg = true
      rw [(FishExecutor.run_frame cycle { e with _isPaused := false }).1]
      exact hnn
    · intro e' h
      rw [(FishExecutor.giveInput_ok_frame e v e' h).2.2.2.1]
      exact hnn
    · rcases hv : v.asSelfNumber with _ | n
      · simp [FishExecutor.setIntervalTime, hv]
        exact hnn
      · have hne : n ≠ JSNum.nan := by
          cases v with
          | num m =>
              cases m <;> simp [JSValue.asSelfNumber] at hv <;> simp [← hv]
          | str s => simp [JSValue.asSelfNumber] at hv
          | bool b => simp [JSValue.asSelfNumber] at hv
          | other => simp [JSValue.asSelfNumber] at hv
        have hvnum : v = JSValue.num n := by
          cases v with
          | num m =>
              cases m <;> simp [JSValue.asSelfNumber] at hv <;> rw [hv]
          | str s => simp [JSValue.asSelfNumber] at hv
          | bool b => simp [JSValue.asSelfNumber] at hv
          | other => simp [JSValue.asSelfNumber] at hv
        rw [hvnum, FishExecutor.setIntervalTime_stores cycle e n hne]
        exact JSNum.max0_nonneg n hne
    · simp only [FishExecutor.offAdvance]
      split
      · exact hnn
      · exact hnn

/-- Witness for C8 at concrete inputs: a string assignment is
ignored, −5 stores 0, 7 stores 7, and running preserves
non-negativity. -/
theorem c8_witness :
    (FishExecutor.setIntervalTime termCycle baseExec (JSValue.str "a")).1._intervalTime =
      baseExec._intervalTime ∧
    (FishExecutor.setIntervalTime termCycle baseExec
      (JSValue.num (JSNum.fin (-5)))).1._intervalTime = JSNum.fin 0 ∧
    (FishExecutor.setIntervalTime termCycle baseExec
      (JSValue.num (JSNum.fin 7))).1._intervalTime = JSNum.fin 7 ∧
    (FishExecutor.run termCycle baseExec).1._intervalTime.isNonneg = true :=
  ⟨(c8_intervalTime_nonneg termCycle baseExec (fun _ => ()) "v" [] (JSValue.str "a") 0).2.1
      rfl,
   (c8_intervalTime_nonneg termCycle baseExec (fun _ => ()) "v" []
      (JSValue.num (JSNum.fin (-5))) 0).2.2.1 (JSNum.fin (-5)) (by decide) (by decide),
   (c8_intervalTime_nonneg termCycle baseExec (fun _ => ()) "v" []
      (JSValue.num (JSNum.fin 7)) 0).2.2.2.1 (JSNum.fin 7) (by decide) (by decide),
   ((c8_intervalTime_nonneg termCycle baseExec (fun _ => ()) "v" [] JSValue.other 0).2.2.2.2
      (by decide)).1⟩

/-- Claim C10: the cumulative output is append-only across every
public operation — the output before is a prefix of (for the
non-advancing operations: equal to) the output after. -/
theorem c10_output_append_only (cycle : Cycle σ) (e : FishExecutor σ)
    (c : JSValue) (v : JSValue) (f : Nat) :
    (∃ t, (FishExecutor.run cycle e).1._output = e._output ++ t) ∧
    (FishExecutor.pause e)._output = e._output ∧
    (∃ t, (FishExecutor.resume cycle e).1._output = e._output ++ t) ∧
    (∀ e', FishExecutor.giveInput e c = Except.ok e' → e'._output = e._output) ∧
    (∃ t, (FishExecutor.setIntervalTime cycle e v).1._output = e._output ++ t) ∧
    (FishExecutor.onAdvance e f)._output = e._output ∧
    (FishExecutor.offAdvance e f)._output = e._output ∧
    (FishExecutor.instructionPointer e).2._output = e._output ∧
    (FishExecutor.inputBuffer e).2._output = e._output ∧
    (FishExecutor.stackSnapshot e).2._output = e._output ∧
    (FishExecutor.hasStarted e).2._output = e._output ∧
    (FishExecutor.isPaused e).2._output = e._output ∧
    (FishExecutor.intervalTime e).2._output = e._output ∧
    (FishExecutor.output e).2._output = e._output ∧
    (FishExecutor.hasTerminated e).2._output = e._output := by
  refine ⟨(FishExecutor.run_frame cycle e).2.2.2, rfl,
    (FishExecutor.run_frame cycle { e with _isPaused := false }).2.2.2,
    ?_, ?_, rfl, ?_, rfl, rfl, rfl, rfl, rfl, rfl, rfl, rfl⟩
  · intro e' h
    exact (FishExecutor.giveInput_ok_frame e c e' h).1
  · rcases hv : v.asSelfNumber with _ | n
    · simp only [FishExecutor.setIntervalTime, hv]
      exact ⟨"", (String.append_empty _).symm⟩
    · simp only [FishExecutor.setIntervalTime, hv]
      split
      · exact (FishExecutor.run_frame cycle _).2.2.2
      · exact ⟨"", (String.append_empty _).symm⟩
  · simp only [FishExecutor.offAdvance]
    split
    · rfl
    · rfl

/-- Witness for C10: the giveInput and run conjuncts evaluated at a
concrete executor. -/
theorem c10_witness :
    (∃ t, (FishExecutor.run termCycle baseExec).1._output = baseExec._output ++ t) ∧
    giveExec._output = baseExec._output :=
  ⟨(c10_output_append_only termCycle baseExec (JSValue.str "x") JSValue.other 0).1,
   (c10_output_append_only termCycle baseExec (JSValue.str "x") JSValue.other 0).2.2.2.1
      giveExec (by rfl)⟩

end Fish
